import Mathlib

/-!
Verification of the SCF (self-consistent field) core of `scf/hf.py`
(non-relativistic Hartree-Fock).

The embedding is shallow: scalars are `ℚ` (the source computes with IEEE
floats; the one place where float semantics matters is division by an
exactly-zero denominator, whose non-finite quotient compares false in the
source, and that behaviour is made explicit in the convergence predicates
below).  Matrices handled elementwise by the iteration driver are modelled
as functions `ι → ℚ` over a finite index type (which covers both the
restricted `n×n` density and the unrestricted stacked `2×n×n` density);
matrices that are actually multiplied (level shifting, damping, DIIS error
vectors) are `Matrix (Fin n) (Fin n) ℚ`.  External numerical kernels
(integral contraction `J`/`K`, the generalized eigensolver, `numpy.exp`,
`numpy.linalg.inv`, the checkpoint store and the minimal-basis tables) are
abstract parameters, exactly the services the code calls out to; everything
the Python file itself computes is translated concretely.
-/

/-- Python list indexing `xs[i]` for a (possibly negative) index: a negative
index wraps once from the end; an out-of-range access raises `IndexError`,
modelled as `none`. -/
def pyGet (xs : List ℚ) (i : ℤ) : Option ℚ :=
  let j : ℤ := if i < 0 then (xs.length : ℤ) + i else i
  if 0 ≤ j then xs[j.toNat]? else none

/-- `numpy.zeros_like` followed by the slice assignment `x[:nocc] = v`
(with a nonnegative bound): entry `i` is `v` for `i < nocc`, else `0`. -/
def occList (len nocc : ℕ) (v : ℚ) : List ℚ :=
  (List.range len).map fun i => if i < nocc then v else 0

/-- Effective stop position of the Python slice `x[:b]` on a list of length
`len`: a negative `b` counts from the end (clamped at 0), a nonnegative `b`
is clamped at `len`. -/
def pySliceStop (len : ℕ) (b : ℤ) : ℤ :=
  if b < 0 then max 0 ((len : ℤ) + b) else min b (len : ℤ)

/-- `numpy.zeros_like` followed by `x[:b] = 1` where `b` is an arbitrary
Python integer (negative bounds wrap, as slices never raise). -/
def occListZ (len : ℕ) (b : ℤ) : List ℚ :=
  (List.range len).map fun (i : ℕ) => if (i : ℤ) < pySliceStop len b then 1 else 0

/-- The lexicographic tuple order used by Python `sorted` on the pairs
`(energy, spin-tag)` in `UHF.set_mo_occ` (alpha tag `0` precedes beta tag
`1` on exact energy ties). -/
def pyTupLe (a b : ℚ × ℕ) : Prop :=
  a.1 < b.1 ∨ (a.1 = b.1 ∧ a.2 ≤ b.2)

instance : DecidableRel pyTupLe := fun a b => by
  unfold pyTupLe; infer_instance

/-- `UHF.set_mo_occ`, automatic branch: merge the alpha energies (tag 0) and
beta energies (tag 1), sort by `(energy, tag)`, and count how many of the
lowest `nelectron` entries are alpha-tagged (source lines 744-746). -/
def uhf_alpha_count (nelectron : ℕ) (ea eb : List ℚ) : ℕ :=
  let ee := List.insertionSort pyTupLe
    ((ea.map fun e => (e, 0)) ++ (eb.map fun e => (e, 1)))
  ((ee.take nelectron).filter fun p => p.2 == 0).length

/-- `SCF.set_mo_occ` (source lines 357-367).  `nocc = nelectron / 2`
(Python 2 integer division), the occupation vector gets `2` in its first
`nocc` slots; the `log.debug` calls eagerly index `mo_energy[nocc-1]` (and
`mo_energy[nocc]` when `nocc < size`), so those accesses can raise
`IndexError` (`none`) before the vector is returned. -/
def set_mo_occ (nelectron : ℕ) (mo_energy : List ℚ) : Option (List ℚ) :=
  let nocc := nelectron / 2
  let mo_occ := occList mo_energy.length nocc 2
  if nocc < mo_energy.length then
    (pyGet mo_energy ((nocc : ℤ) - 1)).bind fun _ =>
      (pyGet mo_energy (nocc : ℤ)).map fun _ => mo_occ
  else
    (pyGet mo_energy ((nocc : ℤ) - 1)).map fun _ => mo_occ

/-- `UHF.set_mo_occ` (source lines 739-767).  `n_a` is the configured fixed
alpha count when positive, else the merged-sort count; `n_b = nelectron -
n_a` as a Python integer (possibly negative).  `mo_occ[0][:n_a]` and
`mo_occ[1][:n_b]` are set to 1 (Python slices never raise; negative bounds
wrap).  The `log.debug` lines 757-765 eagerly index the alpha energy list at
`n_a-1`, `n_a` (when `n_a < size`), `n_b-1` and `n_b`, which can raise
`IndexError` (`none`). -/
def uhf_set_mo_occ (nelectron fix_nelectron_alpha : ℕ) (ea eb : List ℚ) :
    Option (List ℚ × List ℚ) :=
  let n_a : ℤ := if 0 < fix_nelectron_alpha then (fix_nelectron_alpha : ℤ)
    else (uhf_alpha_count nelectron ea eb : ℤ)
  let n_b : ℤ := (nelectron : ℤ) - n_a
  let mo_occ_a := occListZ ea.length n_a
  let mo_occ_b := occListZ eb.length n_b
  let dbg1 : Option Unit :=
    if n_a < (ea.length : ℤ) then
      (pyGet ea (n_a - 1)).bind fun _ => (pyGet ea n_a).map fun _ => ()
    else
      (pyGet ea (n_a - 1)).map fun _ => ()
  let dbg2 : Option Unit :=
    (pyGet ea (n_b - 1)).bind fun _ => (pyGet ea n_b).map fun _ => ()
  dbg1.bind fun _ => dbg2.map fun _ => (mo_occ_a, mo_occ_b)

/-- The DIIS error-vector history push inlined in `UHF.init_diis` (source
lines 715-719): `err_vec_stack.append(errvec)` followed by `pop(0)` of the
oldest entry when the length exceeds `diis_space`. -/
def diisPush {α : Type} (diis_space : ℕ) (stack : List α) (v : α) : List α :=
  let stack := stack ++ [v]
  if diis_space < stack.length then stack.tail else stack

/-- Square rational matrices, for the Fock-conditioning algebra. -/
abbrev Mat (n : ℕ) := Matrix (Fin n) (Fin n) ℚ

/-- `SCF.level_shift` (source lines 197-202): a factor below `1e-3` is a
pass-through, otherwise `f + (s - s·(d/2)·s)·factor`. -/
def level_shift {n : ℕ} (s d f : Mat n) (factor : ℚ) : Mat n :=
  if factor < 1 / 1000 then f
  else f + factor • (s - s * ((1 / 2 : ℚ) • d) * s)

/-- `SCF.damping` (source lines 215-225): a factor below `1e-3` is a
pass-through, otherwise subtract the symmetrized
`(I - s·d/2)·f·d·s` weighted by `factor/(factor+1)`. -/
def damping {n : ℕ} (s d f : Mat n) (factor : ℚ) : Mat n :=
  if factor < 1 / 1000 then f
  else
    let dm_vir := (1 : Mat n) - s * ((1 / 2 : ℚ) • d)
    let f0 := dm_vir * f * d * s
    let f1 := (factor / (factor + 1)) • (f0 + f0.transpose)
    f - f1

/-- The closure returned by `SCF.init_diis` (source lines 227-242), one call
per cycle.  `update` abstracts `diis.SCF_DIIS.update` (the external
extrapolation kernel, module `diis`), `expQ` abstracts `numpy.exp`.  For
`cycle ≥ diis_start_cycle` the Fock matrix is first extrapolated; then
cycles before `diis_start_cycle - 1` get damping and level shifting at the
fixed factors, and all later cycles get level shifting at the exponentially
decayed factor. -/
def scf_diis {n : ℕ} (diis_start_cycle : ℤ) (damp_factor level_shift_factor : ℚ)
    (expQ : ℤ → ℚ) (update : Mat n → Mat n → Mat n → Mat n)
    (cycle : ℕ) (s d f : Mat n) : Mat n :=
  let f := if diis_start_cycle ≤ (cycle : ℤ) then update s d f else f
  if (cycle : ℤ) < diis_start_cycle - 1 then
    level_shift s d (damping s d f damp_factor) level_shift_factor
  else
    level_shift s d f (level_shift_factor * expQ (diis_start_cycle - (cycle : ℤ) - 1))

/-- `UHF.level_shift` (source lines 688-693): full (not half) density
weight. -/
def uhf_level_shift {n : ℕ} (s d f : Mat n) (factor : ℚ) : Mat n :=
  if factor < 1 / 1000 then f
  else f + factor • (s - s * d * s)

/-- `UHF.damping` (source lines 695-703).  `sinv` abstracts the external
dense kernel `numpy.linalg.inv(s)`. -/
def uhf_damping {n : ℕ} (s sinv d f : Mat n) (factor : ℚ) : Mat n :=
  if factor < 1 / 1000 then f
  else
    let dm_vir := s - s * d * s
    let f0 := dm_vir * sinv * f * d * s
    let f1 := (factor / (factor + 1)) • (f0 + f0.transpose)
    f - f1

/-- The closure returned by `UHF.init_diis` (source lines 705-732), acting
on alpha/beta pairs; the error-vector history (`err_vec_stack`) is threaded
explicitly.  In the extrapolation regime the error vector
`(S·D·F)^† - S·D·F` is built per spin channel, pushed onto the bounded
history (`diisPush`), and `update` (abstracting `diis.DIIS.update`) is
applied to the trimmed history. -/
def uhf_scf_diis {n : ℕ} (diis_start_cycle : ℤ) (damp_factor level_shift_factor : ℚ)
    (expQ : ℤ → ℚ) (diis_space : ℕ)
    (update : List (Mat n × Mat n) → Mat n × Mat n → Mat n × Mat n)
    (sinv : Mat n) (cycle : ℕ) (stack : List (Mat n × Mat n))
    (s : Mat n) (d f : Mat n × Mat n) :
    List (Mat n × Mat n) × (Mat n × Mat n) :=
  let pushed :=
    if diis_start_cycle ≤ (cycle : ℤ) then
      let sdf_a := s * d.1 * f.1
      let sdf_b := s * d.2 * f.2
      let stack := diisPush diis_space stack (sdf_a.transpose - sdf_a, sdf_b.transpose - sdf_b)
      (stack, update stack f)
    else (stack, f)
  let stack := pushed.1
  let f := pushed.2
  if (cycle : ℤ) < diis_start_cycle - 1 then
    (stack,
      (uhf_level_shift s d.1 (uhf_damping s sinv d.1 f.1 damp_factor) level_shift_factor,
       uhf_level_shift s d.2 (uhf_damping s sinv d.2 f.2 damp_factor) level_shift_factor))
  else
    let fac := level_shift_factor * expQ (diis_start_cycle - (cycle : ℤ) - 1)
    (stack, (uhf_level_shift s d.1 f.1 fac, uhf_level_shift s d.2 f.2 fac))

/-- The relative-energy stopping test of `scf_cycle` (source line 127):
`abs((hf_energy - last_hf_e)/hf_energy) < scf_threshold`.  When `hf_energy`
is exactly zero the float quotient is non-finite and the comparison is
false, hence the explicit guard. -/
def energy_converged (hf_energy last_hf_e scf_threshold : ℚ) : Prop :=
  hf_energy ≠ 0 ∧ |(hf_energy - last_hf_e) / hf_energy| < scf_threshold

instance (e l t : ℚ) : Decidable (energy_converged e l t) := by
  unfold energy_converged; infer_instance

/-- `SCF.check_dm_converge` (source lines 387-392): the sum of absolute
per-element density differences, divided by the sum of absolute entries of
the previous density, compared against `scf_threshold * 1e2`.  A zero
denominator gives a non-finite float quotient, which compares false. -/
def check_dm_converge {ι : Type} [Fintype ι] (dm dm_last : ι → ℚ)
    (scf_threshold : ℚ) : Prop :=
  (∑ i, |dm_last i|) ≠ 0 ∧
    (∑ i, |dm i - dm_last i|) / (∑ i, |dm_last i|) < scf_threshold * 100

instance {ι : Type} [Fintype ι] (dm dm_last : ι → ℚ) (t : ℚ) :
    Decidable (check_dm_converge dm dm_last t) := by
  unfold check_dm_converge; infer_instance

/-- The collaborators `scf_cycle` invokes on its `scf` object, as abstract
services (the spec's opaque-service contracts): initial guess, core
Hamiltonian and overlap integrals, effective-potential builder
(`get_eff_potential dm dm_last vhf_last`), convergence accelerator
(`init_diis` closure, called as `diis cycle s1e dm fock`), generalized
eigensolver, occupation selector, density builder and energy evaluator.
Arrays are elementwise maps `ι → ℚ`; `MOE`/`MOC` are the orbital-energy and
orbital-coefficient shapes (per-spin pairs in the unrestricted case). -/
structure SCFSvc (ι MOE MOC : Type) where
  init_guess : ℚ × (ι → ℚ)
  h1e : ι → ℚ
  s1e : ι → ℚ
  eff_pot : (ι → ℚ) → (ι → ℚ) → (ι → ℚ) → (ι → ℚ)
  diis : ℕ → (ι → ℚ) → (ι → ℚ) → (ι → ℚ) → (ι → ℚ)
  eig : (ι → ℚ) → (ι → ℚ) → MOE × MOC × ℤ
  occ_of : MOE → MOE
  den : MOC → MOE → (ι → ℚ)
  energy : (ι → ℚ) → (ι → ℚ) → MOE → MOE → ℚ
  max_scf_cycle : ℤ

/-- The mutable locals of the `while` loop of `scf_cycle` (source lines
103-134), plus `iters`, an instrumentation counter of how many times the
loop body has executed. -/
structure LoopSt (ι MOE MOC : Type) where
  scf_conv : Bool
  cycle : ℕ
  iters : ℕ
  hf_energy : ℚ
  last_hf_e : ℚ
  dm : ι → ℚ
  dm_last : ι → ℚ
  vhf : ι → ℚ
  mo_energy : MOE
  mo_coeff : MOC
  mo_occ : MOE

/-- One execution of the body of the `while` loop of `scf_cycle` (source
lines 113-134): build the potential incrementally, assemble and condition
the Fock matrix, solve the eigenproblem, select occupations, rebuild the
density, evaluate the energy, and set the convergence flag exactly when
both the relative-energy test and `check_dm_converge` pass. -/
def scf_cycle_body {ι MOE MOC : Type} [Fintype ι] (svc : SCFSvc ι MOE MOC)
    (scf_threshold : ℚ) (st : LoopSt ι MOE MOC) : LoopSt ι MOE MOC :=
  let vhf := svc.eff_pot st.dm st.dm_last st.vhf
  let fock := svc.h1e + vhf
  let fock := svc.diis st.cycle svc.s1e st.dm fock
  let dm_last := st.dm
  let last_hf_e := st.hf_energy
  let mec := svc.eig fock svc.s1e
  let mo_occ := svc.occ_of mec.1
  let dm := svc.den mec.2.1 mo_occ
  let hf_energy := svc.energy vhf dm mec.1 mo_occ
  { scf_conv := decide (energy_converged hf_energy last_hf_e scf_threshold) &&
      decide (check_dm_converge dm dm_last scf_threshold)
    cycle := st.cycle + 1
    iters := st.iters + 1
    hf_energy := hf_energy
    last_hf_e := last_hf_e
    dm := dm
    dm_last := dm_last
    vhf := vhf
    mo_energy := mec.1
    mo_coeff := mec.2.1
    mo_occ := mo_occ }

/-- The loop bound `max(1, scf.max_scf_cycle)` of source line 112. -/
def scfMaxIter {ι MOE MOC : Type} (svc : SCFSvc ι MOE MOC) : ℕ :=
  (max 1 svc.max_scf_cycle).toNat

/-- The `while not scf_conv and cycle < max(1, max_scf_cycle)` loop of
`scf_cycle` (source lines 112-134), fuel-indexed; fuel `scfMaxIter svc`
always suffices because each body execution increments `cycle`. -/
def scfLoop {ι MOE MOC : Type} [Fintype ι] (svc : SCFSvc ι MOE MOC)
    (scf_threshold : ℚ) : ℕ → LoopSt ι MOE MOC → LoopSt ι MOE MOC
  | 0, st => st
  | fuel + 1, st =>
    if st.scf_conv = false ∧ st.cycle < scfMaxIter svc then
      scfLoop svc scf_threshold fuel (scf_cycle_body svc scf_threshold st)
    else st

/-- The state of `scf_cycle` just before its `while` loop (source lines
97-110): the density and energy come from `init_dm` when given, else from
the initial-guess service; `dm_last` and `vhf` start at `0`; the orbital
locals are uninitialized in the source (the body always runs at least once
and overwrites them), hence `default`. -/
def scf_init_state {ι MOE MOC : Type} [Inhabited MOE] [Inhabited MOC]
    (svc : SCFSvc ι MOE MOC) (init_dm : Option (ι → ℚ)) : LoopSt ι MOE MOC :=
  let init := match init_dm with
    | none => svc.init_guess
    | some dm => ((0 : ℚ), dm)
  { scf_conv := false
    cycle := 0
    iters := 0
    hf_energy := init.1
    last_hf_e := init.1
    dm := init.2
    dm_last := fun _ => 0
    vhf := fun _ => 0
    mo_energy := default
    mo_coeff := default
    mo_occ := default }

/-- The loop state at exit of the `while` loop of `scf_cycle`. -/
def scf_cycle_loop_state {ι MOE MOC : Type} [Fintype ι] [Inhabited MOE]
    [Inhabited MOC] (svc : SCFSvc ι MOE MOC) (scf_threshold : ℚ)
    (init_dm : Option (ι → ℚ)) : LoopSt ι MOE MOC :=
  scfLoop svc scf_threshold (scfMaxIter svc) (scf_init_state svc init_dm)

/-- The single post-loop refinement pass of `scf_cycle` (source lines
136-146, comment `one extra cycle of SCF`): rebuild the density from the
last orbital coefficients and occupations, rebuild the effective potential
(full build: zero `dm_last`/`vhf_last` defaults) and the Fock matrix,
re-solve the eigenproblem, and recompute occupations, density and energy
once, returning them with the loop's convergence flag. -/
def scf_cycle_extra {ι MOE MOC : Type} (svc : SCFSvc ι MOE MOC)
    (st : LoopSt ι MOE MOC) : Bool × ℚ × MOE × MOE × MOC :=
  let dm := svc.den st.mo_coeff st.mo_occ
  let vhf := svc.eff_pot dm (fun _ => 0) (fun _ => 0)
  let fock := svc.h1e + vhf
  let mec := svc.eig fock svc.s1e
  let mo_occ := svc.occ_of mec.1
  let dm2 := svc.den mec.2.1 mo_occ
  let hf_energy := svc.energy vhf dm2 mec.1 mo_occ
  (st.scf_conv, hf_energy, mec.1, mo_occ, mec.2.1)

/-- `scf_cycle` (source lines 96-147): initial guess, the bounded
fixed-point loop, then the extra refinement pass; returns
`(scf_conv, hf_energy, mo_energy, mo_occ, mo_coeff)`. -/
def scf_cycle {ι MOE MOC : Type} [Fintype ι] [Inhabited MOE] [Inhabited MOC]
    (svc : SCFSvc ι MOE MOC) (scf_threshold : ℚ) (init_dm : Option (ι → ℚ)) :
    Bool × ℚ × MOE × MOE × MOC :=
  let st := scfLoop svc scf_threshold (scfMaxIter svc) (scf_init_state svc init_dm)
  let dm := svc.den st.mo_coeff st.mo_occ
  let vhf := svc.eff_pot dm (fun _ => 0) (fun _ => 0)
  let fock := svc.h1e + vhf
  let mec := svc.eig fock svc.s1e
  let mo_occ := svc.occ_of mec.1
  let dm2 := svc.den mec.2.1 mo_occ
  let hf_energy := svc.energy vhf dm2 mec.1 mo_occ
  (st.scf_conv, hf_energy, mec.1, mo_occ, mec.2.1)

/-- The result attributes `SCF.scf`/`UHF.scf` store on `self`:
`scf_conv`, `hf_energy`, `mo_energy`, `mo_occ`, `mo_coeff`. -/
structure ScfResult (ι MOE MOC : Type) where
  scf_conv : Bool
  hf_energy : ℚ
  mo_energy : MOE
  mo_occ : MOE
  mo_coeff : MOC

/-- `SCF.solve_1e` (source lines 437-443): diagonalize the core Hamiltonian
against the overlap. -/
def solve_1e {ι MOE MOC : Type} (svc : SCFSvc ι MOE MOC) : MOE × MOC :=
  let mec := svc.eig svc.h1e svc.s1e
  (mec.1, mec.2.1)

/-- `SCF.scf` (source lines 394-426), electronic part.  A one-electron
molecule bypasses the iterative loop: `solve_1e`, converged flag true,
occupation 1 on the lowest orbital and 0 elsewhere, electronic energy the
lowest orbital energy.  Otherwise the result comes from `scf_cycle`.
Orbital energies are indexed vectors `Fin (m+1) → ℚ` here so that the
lowest-orbital accesses `mo_occ[0] = 1` and `mo_energy[0]` are expressible. -/
def scfScf {ι MOC : Type} {m : ℕ} [Fintype ι] [Inhabited MOC]
    (svc : SCFSvc ι (Fin (m + 1) → ℚ) MOC) (nelectron : ℕ) (scf_threshold : ℚ) :
    ScfResult ι (Fin (m + 1) → ℚ) MOC :=
  if nelectron = 1 then
    let mec := solve_1e svc
    { scf_conv := true
      hf_energy := mec.1 0
      mo_energy := mec.1
      mo_occ := fun i => if i = 0 then 1 else 0
      mo_coeff := mec.2 }
  else
    let r := scf_cycle svc scf_threshold none
    { scf_conv := r.1
      hf_energy := r.2.1
      mo_energy := r.2.2.1
      mo_occ := r.2.2.2.1
      mo_coeff := r.2.2.2.2 }

/-- A Python runtime exception escaping a call, carrying the attribute state
the object was left in. -/
inductive PyExn (σ : Type) where
  | nameError (partial_state : σ)

/-- `UHF.scf` (source lines 947-985), electronic part.  In the one-electron
branch the source diagonalizes `h1e[0]` (one channel of the unrestricted
core Hamiltonian, equal to the restricted one) against the overlap via
`SCF.eig` and stores single-channel `mo_energy`/`mo_coeff`/`mo_occ` plus
`scf_conv = True` and `hf_energy = mo_energy[0]` on `self`; but line 958
then evaluates the undefined local name `mo_energy` (the attribute is
`self.mo_energy`), so the call raises `NameError` with those attributes
already set.  The iterative branch (whose unrestricted shapes and
post-processing are not at issue here) is abstracted as `iterate`. -/
def uhfScf {ι MOC : Type} {m : ℕ}
    (svc : SCFSvc ι (Fin (m + 1) → ℚ) MOC)
    (iterate : ScfResult ι (Fin (m + 1) → ℚ) MOC) (nelectron : ℕ) :
    Except (PyExn (ScfResult ι (Fin (m + 1) → ℚ) MOC))
      (ScfResult ι (Fin (m + 1) → ℚ) MOC) :=
  if nelectron = 1 then
    let mec := solve_1e svc
    Except.error (PyExn.nameError
      { scf_conv := true
        hf_energy := mec.1 0
        mo_energy := mec.1
        mo_occ := fun i => if i = 0 then 1 else 0
        mo_coeff := mec.2 })
  else
    Except.ok iterate

/-- The two-electron contraction kernels `RHF.get_eff_potential` dispatches
to (source lines 567-589): the in-memory contraction `dot_eri_dm` against
the cached integral tensor, the screened direct kernel
`_vhf.vhf_jk_direct_o2` applied to a density difference, and the same
kernel applied to the full density in non-direct mode.  Each returns the
Coulomb/exchange pair `(vj, vk)`. -/
structure RhfJk (n : ℕ) where
  jk_incore : Mat n → Mat n × Mat n
  jk_direct : Mat n → Mat n × Mat n
  jk_plain : Mat n → Mat n × Mat n

/-- `RHF.get_eff_potential` (source lines 567-589): in-memory mode contracts
the full density; direct mode contracts `dm - dm_last` and adds `vhf_last`;
otherwise the full density is contracted; in each mode the potential is
`vj - vk/2`. -/
def rhf_get_eff_potential {n : ℕ} (svc : RhfJk n)
    (eri_in_memory direct_scf : Bool) (dm dm_last vhf_last : Mat n) : Mat n :=
  if eri_in_memory then
    let vjk := svc.jk_incore dm
    vjk.1 - (1 / 2 : ℚ) • vjk.2
  else if direct_scf then
    let vjk := svc.jk_direct (dm - dm_last)
    vhf_last + vjk.1 - (1 / 2 : ℚ) • vjk.2
  else
    let vjk := svc.jk_plain dm
    vjk.1 - (1 / 2 : ℚ) • vjk.2

/-- The contraction kernels `UHF.get_eff_potential` dispatches to (source
lines 923-945): per-channel in-memory contraction against the cached
tensor, and the stacked-density direct kernels `nr_vhf_direct_o3` /
`nr_vhf_o3` returning per-channel `(vj, vk)` pairs. -/
structure UhfJk (n : ℕ) where
  jk_incore : Mat n → Mat n × Mat n
  jk_direct : Mat n × Mat n → (Mat n × Mat n) × (Mat n × Mat n)
  jk_plain : Mat n × Mat n → (Mat n × Mat n) × (Mat n × Mat n)

/-- `UHF.get_eff_potential` (source lines 923-945): with `J_total` the sum
of the per-channel Coulomb terms, the pair of potentials is
`(J_total - K_alpha, J_total - K_beta)`; direct mode contracts the density
differences and adds `vhf_last` channelwise. -/
def uhf_get_eff_potential {n : ℕ} (svc : UhfJk n)
    (eri_in_memory direct_scf : Bool)
    (dm dm_last vhf_last : Mat n × Mat n) : Mat n × Mat n :=
  if eri_in_memory then
    let vjk0 := svc.jk_incore dm.1
    let vjk1 := svc.jk_incore dm.2
    (vjk0.1 + vjk1.1 - vjk0.2, vjk0.1 + vjk1.1 - vjk1.2)
  else if direct_scf then
    let vjk := svc.jk_direct (dm.1 - dm_last.1, dm.2 - dm_last.2)
    (vhf_last.1 + (vjk.1.1 + vjk.1.2 - vjk.2.1),
     vhf_last.2 + (vjk.1.1 + vjk.1.2 - vjk.2.2))
  else
    let vjk := svc.jk_plain dm
    (vjk.1.1 + vjk.1.2 - vjk.2.1, vjk.1.1 + vjk.1.2 - vjk.2.2)

/-- `SCF._init_guess_by_1e` (source lines 269-278): diagonalize the core
Hamiltonian, occupy, build a density; returns energy 0.  No external
dependency, so it always succeeds. -/
def init_guess_by_1e {ι MOE MOC : Type} (svc : SCFSvc ι MOE MOC) :
    ℚ × (ι → ℚ) :=
  let mec := svc.eig svc.h1e svc.s1e
  let mo_occ := svc.occ_of mec.1
  (0, svc.den mec.2.1 mo_occ)

/-- `SCF._init_guess_by_minao` (source lines 260-267): the module-level
minimal-basis projection `init_guess_by_minao` (whose minimal-basis tables
and overlap solves are external, hence an `Except`-valued service
`minao_dm`) under a bare `except:` that falls back to the one-electron
guess with a warning. -/
def scf_init_guess_by_minao {ι MOE MOC : Type} (svc : SCFSvc ι MOE MOC)
    (minao_dm : Except Unit (ι → ℚ)) : ℚ × (ι → ℚ) :=
  match minao_dm with
  | Except.ok dm => (0, dm)
  | Except.error _ => init_guess_by_1e svc

/-- `SCF._init_guess_by_chkfile` (source lines 280-314):
`read_scf_from_chkfile` converts any read failure into `IOError` (source
lines 52-68), which the `except IOError` catches, falling back to the
minimal-basis guess with a warning.  On a successful read the
molecule-compatibility warning and the overlap-based projection of the
stored orbitals (all external integral/solve kernels) produce the guess,
abstracted as `project`. -/
def scf_init_guess_by_chkfile {ι MOE MOC χ : Type} (svc : SCFSvc ι MOE MOC)
    (chk_read : Except Unit χ) (project : χ → ℚ × (ι → ℚ))
    (minao_dm : Except Unit (ι → ℚ)) : ℚ × (ι → ℚ) :=
  match chk_read with
  | Except.error _ => scf_init_guess_by_minao svc minao_dm
  | Except.ok rec => project rec

/-- `UHF._init_guess_by_1e` (source lines 812-823): as the restricted one,
but the eigenvectors pass through `UHF.break_spin_sym` (source lines
789-810, abstracted as `break_sym`) before occupations and density are
built. -/
def uhf_init_guess_by_1e {ι MOE MOC : Type} (svc : SCFSvc ι MOE MOC)
    (break_sym : MOC → MOC) : ℚ × (ι → ℚ) :=
  let mec := svc.eig svc.h1e svc.s1e
  let mo_coeff := break_sym mec.2.1
  let mo_occ := svc.occ_of mec.1
  (0, svc.den mo_coeff mo_occ)

/-- `UHF._init_guess_by_minao` (source lines 857-864): `_init_minao_uhf_dm`
(external tables/solves, service `minao_dm`) under a bare `except:` that
falls back to the unrestricted one-electron guess with a warning. -/
def uhf_init_guess_by_minao {ι MOE MOC : Type} (svc : SCFSvc ι MOE MOC)
    (break_sym : MOC → MOC) (minao_dm : Except Unit (ι → ℚ)) : ℚ × (ι → ℚ) :=
  match minao_dm with
  | Except.ok dm => (0, dm)
  | Except.error _ => uhf_init_guess_by_1e svc break_sym

/-- Python `str.lower()` restricted to ASCII (guess-method names are
ASCII): uppercase letters are shifted into lowercase. -/
def pyLower (s : String) : String :=
  ⟨s.data.map fun c =>
    if 65 ≤ c.toNat ∧ c.toNat ≤ 90 then Char.ofNat (c.toNat + 32) else c⟩

/-- What `SCF.set_init_guess` stores: a recognized method name kept in
`self._init_guess`, or a caller-supplied guess function installed as
`self.init_guess_method`. -/
inductive GuessSel where
  | named (method : String)
  | custom

/-- `SCF.set_init_guess` (source lines 321-327): a method whose lowercase
form is one of `1e`, `chkfile`, `minao`, `atom` is stored; otherwise a
supplied guess function is installed; otherwise `KeyError` is raised.  The
function touches no integral routine in any branch. -/
def set_init_guess (method : String) (has_f_init : Bool) :
    Except String GuessSel :=
  if pyLower method ∈ (["1e", "chkfile", "minao", "atom"] : List String) then
    Except.ok (GuessSel.named method)
  else if has_f_init then
    Except.ok GuessSel.custom
  else
    Except.error "Unknown init guess."

/-- `RHF.__init__` (source lines 545-551): an electron count that is odd
and not 1 raises `ValueError` before any further construction; otherwise
`SCF.__init__` runs and the memory-fit predicate `_is_mem_enough`
(`nbf^4/1024^2 < MEMORY_MAX`, source lines 1130-1132, with the external
configuration ceiling `memory_max`) sets `eri_in_memory`.  Pure arithmetic
on the basis size: no integral is evaluated on either path. -/
def rhf_init (nelectron : ℤ) (nbf memory_max : ℕ) : Except String Bool :=
  if nelectron ≠ 1 ∧ nelectron % 2 ≠ 0 then
    Except.error "Invalid electron number"
  else
    Except.ok (decide (nbf ^ 4 / 1024 ^ 2 < memory_max))

/-- A trivial concrete service instantiation over one-entry arrays: all
integrals and kernels return zero and the energy evaluator is constantly
zero (so no run of the driver on it ever satisfies the relative-energy
test, the quotient guard failing at `hf_energy = 0`). -/
def trivSvc : SCFSvc (Fin 1) (Fin 1 → ℚ) (Fin 1 → ℚ) where
  init_guess := (0, fun _ => 0)
  h1e := fun _ => 0
  s1e := fun _ => 0
  eff_pot := fun dm _ _ => dm
  diis := fun _ _ _ f => f
  eig := fun _ _ => (fun _ => 0, fun _ => 0, 0)
  occ_of := fun e => e
  den := fun _ _ => fun _ => 0
  energy := fun _ _ _ _ => 0
  max_scf_cycle := 5

/-- `trivSvc` reconfigured with `max_scf_cycle = 0`. -/
def trivSvc0 : SCFSvc (Fin 1) (Fin 1 → ℚ) (Fin 1 → ℚ) :=
  { trivSvc with max_scf_cycle := 0 }

/-- A nonnegative in-range Python index: success bounds the index. -/
theorem pyGet_some_nonneg {xs : List ℚ} {i : ℤ} {a : ℚ} (hi : 0 ≤ i)
    (h : pyGet xs i = some a) : i < (xs.length : ℤ) := by
  simp only [pyGet] at h
  rw [if_neg (by omega : ¬ i < 0)] at h
  rw [if_pos hi] at h
  obtain ⟨hlt, -⟩ := List.getElem?_eq_some_iff.mp h
  omega

/-- A negative Python index succeeds only when it wraps into range. -/
theorem pyGet_some_neg {xs : List ℚ} {i : ℤ} {a : ℚ} (hi : i < 0)
    (h : pyGet xs i = some a) : 0 ≤ (xs.length : ℤ) + i := by
  simp only [pyGet] at h
  rw [if_pos hi] at h
  by_cases h0 : (0 : ℤ) ≤ (xs.length : ℤ) + i
  · exact h0
  · rw [if_neg h0] at h
    exact absurd h (by simp)

theorem occList_length (len nocc : ℕ) (v : ℚ) :
    (occList len nocc v).length = len := by
  simp [occList]

theorem occList_sum (len nocc : ℕ) (v : ℚ) :
    (occList len nocc v).sum = (min nocc len : ℕ) * v := by
  induction len with
  | zero => simp [occList]
  | succ m ih =>
    rw [occList, List.range_succ, List.map_append, List.sum_append]
    rw [occList] at ih
    rw [ih]
    simp only [List.map_cons, List.map_nil, List.sum_cons, List.sum_nil]
    by_cases h : m < nocc
    · rw [if_pos h]
      have h1 : min nocc m = m := by omega
      have h2 : min nocc (m + 1) = m + 1 := by omega
      rw [h1, h2]
      push_cast
      ring
    · rw [if_neg h]
      have h1 : min nocc (m + 1) = min nocc m := by omega
      rw [h1]
      ring

theorem occList_get (len nocc : ℕ) (v : ℚ) (i : ℕ)
    (h : i < (occList len nocc v).length) :
    (occList len nocc v).get ⟨i, h⟩ = if i < nocc then v else 0 := by
  simp [occList, List.get_eq_getElem, List.getElem_map, List.getElem_range]

theorem pySliceStop_nonneg (len : ℕ) (b : ℤ) : 0 ≤ pySliceStop len b := by
  unfold pySliceStop
  split <;> omega

theorem pySliceStop_le (len : ℕ) (b : ℤ) : pySliceStop len b ≤ (len : ℤ) := by
  unfold pySliceStop
  split <;> omega

theorem pySliceStop_of_between {len : ℕ} {b : ℤ} (h0 : 0 ≤ b)
    (h1 : b ≤ (len : ℤ)) : pySliceStop len b = b := by
  unfold pySliceStop
  split <;> omega

theorem occListZ_eq (len : ℕ) (b : ℤ) :
    occListZ len b = occList len (pySliceStop len b).toNat 1 := by
  unfold occListZ occList
  refine List.map_congr_left fun i hi => ?_
  have h0 := pySliceStop_nonneg len b
  by_cases h : (i : ℤ) < pySliceStop len b
  · rw [if_pos h, if_pos (by omega)]
  · rw [if_neg h, if_neg (by omega)]

theorem occListZ_sum (len : ℕ) (b : ℤ) :
    (occListZ len b).sum = ((pySliceStop len b).toNat : ℚ) := by
  rw [occListZ_eq, occList_sum]
  have h1 := pySliceStop_le len b
  have h2 := pySliceStop_nonneg len b
  have h3 : min (pySliceStop len b).toNat len = (pySliceStop len b).toNat := by
    omega
  rw [h3, mul_one]

theorem uhf_alpha_count_le (nelectron : ℕ) (ea eb : List ℚ) :
    uhf_alpha_count nelectron ea eb ≤ nelectron := by
  unfold uhf_alpha_count
  refine le_trans (List.length_filter_le _ _) ?_
  rw [List.length_take]
  exact min_le_left _ _

theorem scf_cycle_body_iters {ι MOE MOC : Type} [Fintype ι]
    (svc : SCFSvc ι MOE MOC) (thr : ℚ) (st : LoopSt ι MOE MOC) :
    (scf_cycle_body svc thr st).iters = st.iters + 1 := rfl

theorem scf_cycle_body_cycle {ι MOE MOC : Type} [Fintype ι]
    (svc : SCFSvc ι MOE MOC) (thr : ℚ) (st : LoopSt ι MOE MOC) :
    (scf_cycle_body svc thr st).cycle = st.cycle + 1 := rfl

/-- The convergence flag computed by the loop body is exactly the
conjunction of the two stopping tests, evaluated on the values the body
just produced (which it also stores in the state it returns). -/
theorem scf_cycle_body_scf_conv {ι MOE MOC : Type} [Fintype ι]
    (svc : SCFSvc ι MOE MOC) (thr : ℚ) (st : LoopSt ι MOE MOC) :
    (scf_cycle_body svc thr st).scf_conv =
      (decide (energy_converged (scf_cycle_body svc thr st).hf_energy
          (scf_cycle_body svc thr st).last_hf_e thr) &&
        decide (check_dm_converge (scf_cycle_body svc thr st).dm
          (scf_cycle_body svc thr st).dm_last thr)) := rfl

theorem scfLoop_iters_le {ι MOE MOC : Type} [Fintype ι]
    (svc : SCFSvc ι MOE MOC) (thr : ℚ) :
    ∀ (fuel : ℕ) (st : LoopSt ι MOE MOC),
      (scfLoop svc thr fuel st).iters ≤ st.iters + fuel := by
  intro fuel
  induction fuel with
  | zero => intro st; simp [scfLoop]
  | succ m ih =>
    intro st
    rw [scfLoop]
    split
    · refine le_trans (ih _) ?_
      rw [scf_cycle_body_iters]
      omega
    · omega

/-- At loop exit the guard is false: either the flag is set or the cycle
budget is exhausted (provided the fuel covers the remaining budget). -/
theorem scfLoop_exit {ι MOE MOC : Type} [Fintype ι]
    (svc : SCFSvc ι MOE MOC) (thr : ℚ) :
    ∀ (fuel : ℕ) (st : LoopSt ι MOE MOC),
      scfMaxIter svc ≤ st.cycle + fuel →
      ¬((scfLoop svc thr fuel st).scf_conv = false ∧
        (scfLoop svc thr fuel st).cycle < scfMaxIter svc) := by
  intro fuel
  induction fuel with
  | zero =>
    intro st h
    rw [scfLoop]
    rintro ⟨-, hlt⟩
    omega
  | succ m ih =>
    intro st h
    rw [scfLoop]
    split
    · refine ih _ ?_
      rw [scf_cycle_body_cycle]
      omega
    · assumption

/-- C9: initial-guess failures are recoverable via the ordered fallback
chain and never fatal: when the checkpoint cannot be read,
`_init_guess_by_chkfile` returns the minimal-basis guess; when the
minimal-basis guess fails, `_init_guess_by_minao` (restricted and
unrestricted) returns the one-electron guess; the guess functions are
total, so no exception reaches the caller. -/
theorem c9_guess_fallback_chain {ι MOE MOC χ : Type} (svc : SCFSvc ι MOE MOC)
    (project : χ → ℚ × (ι → ℚ)) (minao_dm : Except Unit (ι → ℚ))
    (break_sym : MOC → MOC) (e1 e2 e3 : Unit) :
    scf_init_guess_by_chkfile svc (Except.error e1) project minao_dm
        = scf_init_guess_by_minao svc minao_dm
      ∧ scf_init_guess_by_minao svc (Except.error e2) = init_guess_by_1e svc
      ∧ uhf_init_guess_by_minao svc break_sym (Except.error e3)
        = uhf_init_guess_by_1e svc break_sym :=
  ⟨rfl, rfl, rfl⟩

/-- C4: with one electron, `SCF.scf` bypasses the iterative loop and stores
the direct one-electron solution (converged flag true, occupation 1 on the
lowest orbital, electronic energy the lowest orbital energy); `UHF.scf`
computes and stores the same attributes but its line 958 then reads the
undefined local name `mo_energy` and the call raises `NameError` instead of
returning — the code slip behind the `code_bug` verdict. -/
theorem c4_one_electron_bypass {ι MOC : Type} {m : ℕ} [Fintype ι]
    [Inhabited MOC] (svc : SCFSvc ι (Fin (m + 1) → ℚ) MOC)
    (iterate : ScfResult ι (Fin (m + 1) → ℚ) MOC) (thr : ℚ) :
    scfScf svc 1 thr =
        { scf_conv := true
          hf_energy := (solve_1e svc).1 0
          mo_energy := (solve_1e svc).1
          mo_occ := fun i => if i = 0 then 1 else 0
          mo_coeff := (solve_1e svc).2 }
      ∧ uhfScf svc iterate 1 = Except.error (PyExn.nameError
        { scf_conv := true
          hf_energy := (solve_1e svc).1 0
          mo_energy := (solve_1e svc).1
          mo_occ := fun i => if i = 0 then 1 else 0
          mo_coeff := (solve_1e svc).2 }) :=
  ⟨rfl, rfl⟩

/-- C3: after the while loop exits — converged or not — `scf_cycle` performs
exactly the one refinement pass `scf_cycle_extra` on the exit state, and
that pass depends on the loop state only through the convergence flag and
the last orbital coefficients and occupations (density, potential, Fock,
eigensolution, occupations and energy are all rebuilt from those). -/
theorem c3_single_extra_cycle {ι MOE MOC : Type} [Fintype ι] [Inhabited MOE]
    [Inhabited MOC] (svc : SCFSvc ι MOE MOC) (thr : ℚ)
    (init_dm : Option (ι → ℚ)) :
    scf_cycle svc thr init_dm
        = scf_cycle_extra svc (scf_cycle_loop_state svc thr init_dm)
      ∧ ∀ st st' : LoopSt ι MOE MOC,
          st.scf_conv = st'.scf_conv → st.mo_coeff = st'.mo_coeff →
          st.mo_occ = st'.mo_occ →
          scf_cycle_extra svc st = scf_cycle_extra svc st' := by
  refine ⟨rfl, fun st st' h1 h2 h3 => ?_⟩
  unfold scf_cycle_extra
  rw [h1, h2, h3]

theorem c3_single_extra_cycle_witness :
    scf_cycle trivSvc 1 none
        = scf_cycle_extra trivSvc (scf_cycle_loop_state trivSvc 1 none)
      ∧ scf_cycle_extra trivSvc
          { scf_conv := false, cycle := 3, iters := 3, hf_energy := 7
            last_hf_e := 5, dm := fun _ => 2, dm_last := fun _ => 1
            vhf := fun _ => 3, mo_energy := fun _ => 4, mo_coeff := fun _ => 6
            mo_occ := fun _ => 2 }
        = scf_cycle_extra trivSvc
          { scf_conv := false, cycle := 9, iters := 9, hf_energy := 1
            last_hf_e := 2, dm := fun _ => 5, dm_last := fun _ => 4
            vhf := fun _ => 8, mo_energy := fun _ => 9, mo_coeff := fun _ => 6
            mo_occ := fun _ => 2 } :=
  ⟨(c3_single_extra_cycle trivSvc 1 none).1,
    (c3_single_extra_cycle trivSvc 1 none).2 _ _ rfl rfl rfl⟩

/-- C1: the loop body sets the convergence flag exactly when both stopping
tests hold at the end of the cycle — the relative-energy test
`|(E_new - E_old)/E_new| < scf_threshold` and the density test of
`check_dm_converge` (normalized absolute density change below
`scf_threshold * 100`) — and a set flag terminates the loop: no further
iteration runs. -/
theorem c1_convergence_flag {ι MOE MOC : Type} [Fintype ι]
    (svc : SCFSvc ι MOE MOC) (thr : ℚ) (st : LoopSt ι MOE MOC) :
    ((scf_cycle_body svc thr st).scf_conv = true ↔
        energy_converged (scf_cycle_body svc thr st).hf_energy
            (scf_cycle_body svc thr st).last_hf_e thr
          ∧ check_dm_converge (scf_cycle_body svc thr st).dm
            (scf_cycle_body svc thr st).dm_last thr)
      ∧ ∀ fuel : ℕ, st.scf_conv = true → scfLoop svc thr fuel st = st := by
  constructor
  · rw [scf_cycle_body_scf_conv, Bool.and_eq_true, decide_eq_true_eq,
      decide_eq_true_eq]
  · intro fuel h
    cases fuel with
    | zero => rfl
    | succ m =>
      rw [scfLoop, if_neg]
      simp [h]

theorem c1_convergence_flag_witness :
    scfLoop trivSvc 1 2
        { scf_conv := true, cycle := 0, iters := 0, hf_energy := 0
          last_hf_e := 0, dm := fun _ => 0, dm_last := fun _ => 0
          vhf := fun _ => 0, mo_energy := fun _ => 0, mo_coeff := fun _ => 0
          mo_occ := fun _ => 0 }
      = { scf_conv := true, cycle := 0, iters := 0, hf_energy := 0
          last_hf_e := 0, dm := fun _ => 0, dm_last := fun _ => 0
          vhf := fun _ => 0, mo_energy := fun _ => 0, mo_coeff := fun _ => 0
          mo_occ := fun _ => 0 } :=
  (c1_convergence_flag trivSvc 1 _).2 2 rfl

/-- C8: the DIIS error-vector history is bounded: a push from a history of
length at most `diis_space` keeps the length at most `diis_space`; the push
that would exceed the bound drops exactly the front (oldest) entry, FIFO;
any sequence of pushes from an empty history respects the bound; and the
extrapolation regime of the `UHF.init_diis` closure maintains its history
by exactly this push. -/
theorem c8_history_bound :
    (∀ (α : Type) (space : ℕ) (stack : List α) (v : α),
        stack.length ≤ space → (diisPush space stack v).length ≤ space)
      ∧ (∀ (α : Type) (space : ℕ) (stack : List α) (v : α),
          space < stack.length + 1 →
          diisPush space stack v = (stack ++ [v]).drop 1)
      ∧ (∀ (α : Type) (space : ℕ) (vs : List α),
          (vs.foldl (diisPush space) []).length ≤ space)
      ∧ (∀ (n : ℕ) (dsc : ℤ) (df lsf : ℚ) (expQ : ℤ → ℚ) (space : ℕ)
          (update : List (Mat n × Mat n) → Mat n × Mat n → Mat n × Mat n)
          (sinv : Mat n) (cycle : ℕ) (stack : List (Mat n × Mat n))
          (s : Mat n) (d f : Mat n × Mat n), dsc ≤ (cycle : ℤ) →
          (uhf_scf_diis dsc df lsf expQ space update sinv cycle stack s d f).1
            = diisPush space stack
              ((s * d.1 * f.1).transpose - s * d.1 * f.1,
               (s * d.2 * f.2).transpose - s * d.2 * f.2)) := by
  have hlen : ∀ (α : Type) (space : ℕ) (stack : List α) (v : α),
      stack.length ≤ space → (diisPush space stack v).length ≤ space := by
    intro α space stack v h
    simp only [diisPush]
    split
    · rw [List.length_tail]
      simp only [List.length_append, List.length_cons, List.length_nil]
      omega
    · simp only [List.length_append, List.length_cons, List.length_nil] at *
      omega
  refine ⟨hlen, ?_, ?_, ?_⟩
  · intro α space stack v h
    simp only [diisPush]
    rw [if_pos (by simpa using h), ← List.drop_one]
  · intro α space vs
    have key : ∀ (l : List α) (init : List α), init.length ≤ space →
        (l.foldl (diisPush space) init).length ≤ space := by
      intro l
      induction l with
      | nil => intro init h; simpa using h
      | cons a as ih =>
        intro init h
        exact ih _ (hlen _ _ _ _ h)
    exact key vs [] (by simp)
  · intro n dsc df lsf expQ space update sinv cycle stack s d f h
    unfold uhf_scf_diis
    rw [if_pos h]
    split <;> rfl

theorem c8_history_bound_witness :
    (diisPush 2 [1, 2] 3).length ≤ 2
      ∧ diisPush 2 ([1, 2] : List ℕ) 3 = ([1, 2] ++ [3]).drop 1 :=
  ⟨c8_history_bound.1 ℕ 2 [1, 2] 3 (by decide),
    c8_history_bound.2.1 ℕ 2 [1, 2] 3 (by decide)⟩

/-- C10: configuration errors fail fast before any computation:
`RHF.__init__` raises on an electron count that is odd and not 1, with a
result independent of the basis size and memory ceiling (nothing
molecule-dependent, in particular no integral, is evaluated on that path),
and `set_init_guess` with an unrecognized method and no custom guess
function raises `KeyError`; neither function invokes an integral routine. -/
theorem c10_config_errors_fail_fast :
    (∀ (nelectron : ℤ) (nbf memory_max : ℕ), nelectron ≠ 1 →
        nelectron % 2 ≠ 0 →
        rhf_init nelectron nbf memory_max
          = Except.error "Invalid electron number")
      ∧ (∀ (nelectron : ℤ) (nbf nbf2 memory_max memory_max2 : ℕ),
          nelectron ≠ 1 → nelectron % 2 ≠ 0 →
          rhf_init nelectron nbf memory_max
            = rhf_init nelectron nbf2 memory_max2)
      ∧ (∀ method : String,
          pyLower method ∉ (["1e", "chkfile", "minao", "atom"] : List String) →
          set_init_guess method false = Except.error "Unknown init guess.") := by
  have herr : ∀ (nelectron : ℤ) (nbf memory_max : ℕ), nelectron ≠ 1 →
      nelectron % 2 ≠ 0 →
      rhf_init nelectron nbf memory_max
        = Except.error "Invalid electron number" := by
    intro nelectron nbf memory_max h1 h2
    unfold rhf_init
    rw [if_pos ⟨h1, h2⟩]
  refine ⟨herr, ?_, ?_⟩
  · intro nelectron nbf nbf2 memory_max memory_max2 h1 h2
    rw [herr _ _ _ h1 h2, herr _ _ _ h1 h2]
  · intro method h
    unfold set_init_guess
    rw [if_neg h]
    rfl

theorem c10_config_errors_fail_fast_witness :
    rhf_init 3 2 100 = Except.error "Invalid electron number"
      ∧ rhf_init 3 2 100 = rhf_init 3 7 9
      ∧ set_init_guess "foo" false = Except.error "Unknown init guess." :=
  ⟨c10_config_errors_fail_fast.1 3 2 100 (by decide) (by decide),
    c10_config_errors_fail_fast.2.1 3 2 7 100 9 (by decide) (by decide),
    c10_config_errors_fail_fast.2.2 "foo" (by decide)⟩

/-- C5 (amended): the fixed-point loop body of `scf_cycle` executes at most
`max(1, max_scf_cycle)` times — for `max_scf_cycle ≤ 0` that is one
execution, not zero, which is the one-word amendment the counterexample
forces; when the loop ends without the convergence flag the cycle budget is
exhausted; and `scf_cycle` still returns normally, its status flag being
the loop's flag alongside the state recomputed by the final refinement
pass. -/
theorem c5_cycle_budget {ι MOE MOC : Type} [Fintype ι] [Inhabited MOE]
    [Inhabited MOC] (svc : SCFSvc ι MOE MOC) (thr : ℚ)
    (init_dm : Option (ι → ℚ)) :
    (scf_cycle_loop_state svc thr init_dm).iters ≤ scfMaxIter svc
      ∧ ((scf_cycle_loop_state svc thr init_dm).scf_conv = false →
          scfMaxIter svc ≤ (scf_cycle_loop_state svc thr init_dm).cycle)
      ∧ scf_cycle svc thr init_dm
        = scf_cycle_extra svc (scf_cycle_loop_state svc thr init_dm) := by
  refine ⟨?_, ?_, rfl⟩
  · have h := scfLoop_iters_le svc thr (scfMaxIter svc)
      (scf_init_state svc init_dm)
    have h0 : (scf_init_state svc init_dm).iters = 0 := rfl
    rw [scf_cycle_loop_state]
    omega
  · intro hconv
    have h := scfLoop_exit svc thr (scfMaxIter svc)
      (scf_init_state svc init_dm) (by
        have h0 : (scf_init_state svc init_dm).cycle = 0 := rfl
        omega)
    rw [scf_cycle_loop_state] at hconv ⊢
    by_contra hlt
    exact h ⟨hconv, by omega⟩

theorem c5_cycle_budget_witness :
    (scf_cycle_loop_state trivSvc 1 none).iters ≤ scfMaxIter trivSvc
      ∧ scfMaxIter trivSvc ≤ (scf_cycle_loop_state trivSvc 1 none).cycle :=
  ⟨(c5_cycle_budget trivSvc 1 none).1,
    (c5_cycle_budget trivSvc 1 none).2.1 rfl⟩

/-- C5 counterexample: with `max_scf_cycle = 0` the loop guard
`cycle < max(1, max_scf_cycle)` still admits one iteration, so the body
executes once — more than the zero executions the claim's "at most
`max_scf_cycle` times" allows. -/
theorem c5_counterexample :
    trivSvc0.max_scf_cycle = 0
      ∧ (scf_cycle_loop_state trivSvc0 1 none).iters = 1
      ∧ ¬((scf_cycle_loop_state trivSvc0 1 none).iters
          ≤ trivSvc0.max_scf_cycle.toNat) :=
  ⟨rfl, rfl, fun h => Nat.not_succ_le_zero 0 h⟩

/-- C2 (amended): the accelerator closures have three regimes by cycle
index.  Before `diis_start_cycle - 1`: damping then level shifting at the
configured fixed factors, no extrapolation.  At the boundary cycle: only
level shifting at the decayed factor `level_shift_factor *
exp(diis_start_cycle - cycle - 1)`.  From `diis_start_cycle` on:
extrapolation over the bounded history FOLLOWED BY level shifting at the
same decayed-factor formula (a pass-through only when that factor is below
`1e-3`) — the claim's "no level shifting" in this regime is the part the
counterexample refutes — and no damping.  Stated for the restricted and the
unrestricted closure. -/
theorem c2_accelerator_regimes {n : ℕ} (dsc : ℤ) (df lsf : ℚ)
    (expQ : ℤ → ℚ) (update : Mat n → Mat n → Mat n → Mat n)
    (upd2 : List (Mat n × Mat n) → Mat n × Mat n → Mat n × Mat n)
    (space : ℕ) (sinv : Mat n) (stack : List (Mat n × Mat n))
    (cycle : ℕ) (s d f : Mat n) (dp fp : Mat n × Mat n) :
    ((cycle : ℤ) < dsc - 1 →
        scf_diis dsc df lsf expQ update cycle s d f
          = level_shift s d (damping s d f df) lsf)
      ∧ ((cycle : ℤ) = dsc - 1 →
          scf_diis dsc df lsf expQ update cycle s d f
            = level_shift s d f (lsf * expQ (dsc - (cycle : ℤ) - 1)))
      ∧ (dsc ≤ (cycle : ℤ) →
          scf_diis dsc df lsf expQ update cycle s d f
            = level_shift s d (update s d f)
              (lsf * expQ (dsc - (cycle : ℤ) - 1)))
      ∧ ((cycle : ℤ) < dsc - 1 →
          uhf_scf_diis dsc df lsf expQ space upd2 sinv cycle stack s dp fp
            = (stack,
              (uhf_level_shift s dp.1 (uhf_damping s sinv dp.1 fp.1 df) lsf,
               uhf_level_shift s dp.2 (uhf_damping s sinv dp.2 fp.2 df) lsf)))
      ∧ ((cycle : ℤ) = dsc - 1 →
          uhf_scf_diis dsc df lsf expQ space upd2 sinv cycle stack s dp fp
            = (stack,
              (uhf_level_shift s dp.1 fp.1 (lsf * expQ (dsc - (cycle : ℤ) - 1)),
               uhf_level_shift s dp.2 fp.2 (lsf * expQ (dsc - (cycle : ℤ) - 1)))))
      ∧ (dsc ≤ (cycle : ℤ) →
          uhf_scf_diis dsc df lsf expQ space upd2 sinv cycle stack s dp fp
            = (let stack2 := diisPush space stack
                ((s * dp.1 * fp.1).transpose - s * dp.1 * fp.1,
                 (s * dp.2 * fp.2).transpose - s * dp.2 * fp.2)
              let f2 := upd2 stack2 fp
              (stack2,
                (uhf_level_shift s dp.1 f2.1 (lsf * expQ (dsc - (cycle : ℤ) - 1)),
                 uhf_level_shift s dp.2 f2.2 (lsf * expQ (dsc - (cycle : ℤ) - 1)))))) := by
  refine ⟨?_, ?_, ?_, ?_, ?_, ?_⟩
  · intro h
    unfold scf_diis
    rw [if_neg (show ¬ dsc ≤ (cycle : ℤ) by omega),
      if_pos (show (cycle : ℤ) < dsc - 1 from h)]
  · intro h
    unfold scf_diis
    rw [if_neg (show ¬ dsc ≤ (cycle : ℤ) by omega),
      if_neg (show ¬ (cycle : ℤ) < dsc - 1 by omega)]
  · intro h
    unfold scf_diis
    rw [if_pos (show dsc ≤ (cycle : ℤ) from h),
      if_neg (show ¬ (cycle : ℤ) < dsc - 1 by omega)]
  · intro h
    unfold uhf_scf_diis
    rw [if_neg (show ¬ dsc ≤ (cycle : ℤ) by omega),
      if_pos (show (cycle : ℤ) < dsc - 1 from h)]
  · intro h
    unfold uhf_scf_diis
    rw [if_neg (show ¬ dsc ≤ (cycle : ℤ) by omega),
      if_neg (show ¬ (cycle : ℤ) < dsc - 1 by omega)]
  · intro h
    unfold uhf_scf_diis
    rw [if_pos (show dsc ≤ (cycle : ℤ) from h),
      if_neg (show ¬ (cycle : ℤ) < dsc - 1 by omega)]

theorem c2_accelerator_regimes_witness :
    scf_diis (n := 1) 2 0 0 (fun _ => 1) (fun _ _ f => f) 0 1 0 0
        = level_shift 1 0 (damping 1 0 0 0) 0
      ∧ scf_diis (n := 1) 2 0 0 (fun _ => 1) (fun _ _ f => f) 1 1 0 0
        = level_shift 1 0 0 (0 * (fun _ : ℤ => (1 : ℚ)) (2 - 1 - 1))
      ∧ scf_diis (n := 1) 2 0 0 (fun _ => 1) (fun _ _ f => f) 2 1 0 0
        = level_shift 1 0 ((fun _ _ f => f) (1 : Mat 1) 0 0)
          (0 * (fun _ : ℤ => (1 : ℚ)) (2 - 2 - 1)) :=
  ⟨(c2_accelerator_regimes 2 0 0 (fun _ => 1) (fun _ _ f => f)
      (fun _ f => f) 6 1 [] 0 1 0 0 (0, 0) (0, 0)).1 (by decide),
    (c2_accelerator_regimes 2 0 0 (fun _ => 1) (fun _ _ f => f)
      (fun _ f => f) 6 1 [] 1 1 0 0 (0, 0) (0, 0)).2.1 (by decide),
    (c2_accelerator_regimes 2 0 0 (fun _ => 1) (fun _ _ f => f)
      (fun _ f => f) 6 1 [] 2 1 0 0 (0, 0) (0, 0)).2.2.1 (by decide)⟩

/-- C2 counterexample: at `cycle = diis_start_cycle = 3` with
`level_shift_factor = 1`, the decayed factor is `1 * exp(-1) ≈ 0.3679`
(here `expQ` renders the external `numpy.exp` by the rational stand-in
`368/1000`; the only property used is that the factor is at least `1e-3`,
which holds for the true value as well), so the closure DOES apply level
shifting after the extrapolation: on `s = 1`, `d = 0`, `f = 0` with the
extrapolation kernel the identity, the claim's "extrapolation only, no
level shifting" predicts the zero matrix, but the code shifts it to
`(368/1000) • 1`. -/
theorem c2_counterexample :
    scf_diis (n := 1) 3 0 1 (fun _ => 368 / 1000) (fun _ _ f => f) 3 1 0 0
        = (368 / 1000 : ℚ) • (1 : Mat 1)
      ∧ scf_diis (n := 1) 3 0 1 (fun _ => 368 / 1000) (fun _ _ f => f) 3 1 0 0
        ≠ (fun _ _ f => f) (1 : Mat 1) (0 : Mat 1) (0 : Mat 1) := by
  have heq : scf_diis (n := 1) 3 0 1 (fun _ => 368 / 1000)
      (fun _ _ f => f) 3 1 0 0 = (368 / 1000 : ℚ) • (1 : Mat 1) := by
    unfold scf_diis level_shift
    rw [if_pos (show (3 : ℤ) ≤ ((3 : ℕ) : ℤ) by omega),
      if_neg (show ¬ (((3 : ℕ) : ℤ) < 3 - 1) by omega)]
    dsimp only
    rw [if_neg (show ¬ ((1 : ℚ) * (368 / 1000) < 1 / 1000) by norm_num)]
    simp
  refine ⟨heq, ?_⟩
  rw [heq]
  intro h
  have h00 := congrFun (congrFun h 0) 0
  simp [Matrix.one_apply] at h00

/-- C6: with the three contraction routines agreeing with the abstract
integral-contraction services `J`/`K` (their shared contract), the
restricted potential is `J(D) - K(D)/2` in the in-memory and plain modes
and `vhf_last + J(D - D_last) - K(D - D_last)/2` in incremental direct
mode; the unrestricted potentials are `(J_total - K_alpha, J_total -
K_beta)` with `J_total = J(D_alpha) + J(D_beta)` in the in-memory and plain
modes, the incremental direct mode applying the same formulas to the
density difference on top of `vhf_last` (hence exactly the plain formulas
on a fresh build, where `dm_last` and `vhf_last` are zero). -/
theorem c6_eff_potential_formulas {n : ℕ} (svcR : RhfJk n) (svcU : UhfJk n)
    (J K Ju Ku : Mat n → Mat n)
    (hin : ∀ x, svcR.jk_incore x = (J x, K x))
    (hdir : ∀ x, svcR.jk_direct x = (J x, K x))
    (hpl : ∀ x, svcR.jk_plain x = (J x, K x))
    (hinU : ∀ x, svcU.jk_incore x = (Ju x, Ku x))
    (hdirU : ∀ p, svcU.jk_direct p = ((Ju p.1, Ju p.2), (Ku p.1, Ku p.2)))
    (hplU : ∀ p, svcU.jk_plain p = ((Ju p.1, Ju p.2), (Ku p.1, Ku p.2)))
    (dm dm_last vhf_last : Mat n) (dmp dmlp vhlp : Mat n × Mat n) (b : Bool) :
    rhf_get_eff_potential svcR true b dm dm_last vhf_last
        = J dm - (1 / 2 : ℚ) • K dm
      ∧ rhf_get_eff_potential svcR false true dm dm_last vhf_last
        = vhf_last + J (dm - dm_last) - (1 / 2 : ℚ) • K (dm - dm_last)
      ∧ rhf_get_eff_potential svcR false false dm dm_last vhf_last
        = J dm - (1 / 2 : ℚ) • K dm
      ∧ uhf_get_eff_potential svcU true b dmp dmlp vhlp
        = (Ju dmp.1 + Ju dmp.2 - Ku dmp.1, Ju dmp.1 + Ju dmp.2 - Ku dmp.2)
      ∧ uhf_get_eff_potential svcU false false dmp dmlp vhlp
        = (Ju dmp.1 + Ju dmp.2 - Ku dmp.1, Ju dmp.1 + Ju dmp.2 - Ku dmp.2)
      ∧ uhf_get_eff_potential svcU false true dmp dmlp vhlp
        = (vhlp.1 + (Ju (dmp.1 - dmlp.1) + Ju (dmp.2 - dmlp.2)
              - Ku (dmp.1 - dmlp.1)),
           vhlp.2 + (Ju (dmp.1 - dmlp.1) + Ju (dmp.2 - dmlp.2)
              - Ku (dmp.2 - dmlp.2)))
      ∧ uhf_get_eff_potential svcU false true dmp (0, 0) (0, 0)
        = (Ju dmp.1 + Ju dmp.2 - Ku dmp.1, Ju dmp.1 + Ju dmp.2 - Ku dmp.2) := by
  refine ⟨?_, ?_, ?_, ?_, ?_, ?_, ?_⟩
  · simp [rhf_get_eff_potential, hin]
  · simp [rhf_get_eff_potential, hdir]
  · simp [rhf_get_eff_potential, hpl]
  · simp [uhf_get_eff_potential, hinU]
  · simp [uhf_get_eff_potential, hplU]
  · simp [uhf_get_eff_potential, hdirU]
  · simp [uhf_get_eff_potential, hdirU]

theorem c6_eff_potential_formulas_witness :
    rhf_get_eff_potential
        (⟨fun x => (x, 0), fun x => (x, 0), fun x => (x, 0)⟩ : RhfJk 1)
        true false (1 : Mat 1) 0 0
      = (1 : Mat 1) - (1 / 2 : ℚ) • (0 : Mat 1) :=
  (c6_eff_potential_formulas
    (⟨fun x => (x, 0), fun x => (x, 0), fun x => (x, 0)⟩ : RhfJk 1)
    (⟨fun x => (x, 0), fun p => ((p.1, p.2), (0, 0)),
      fun p => ((p.1, p.2), (0, 0))⟩ : UhfJk 1)
    (fun x => x) (fun _ => 0) (fun x => x) (fun _ => 0)
    (fun _ => rfl) (fun _ => rfl) (fun _ => rfl) (fun _ => rfl)
    (fun _ => rfl) (fun _ => rfl)
    (1 : Mat 1) 0 0 ((1 : Mat 1), (1 : Mat 1)) (0, 0) (0, 0) false).1

theorem occ_sum_cast {na : ℤ} {len : ℕ} (h0 : 0 ≤ na)
    (h1 : na ≤ (len : ℤ)) :
    (occListZ len na).sum = ((na.toNat : ℕ) : ℚ) := by
  rw [occListZ_sum, pySliceStop_of_between h0 h1]

/-- Core of the unrestricted occupation-count argument: for any alpha count
`na` between `0` and the electron count, a normal return of the
occupation-selector body forces `na` and `nelectron - na` into the
per-channel capacities, and then the two slice-assigned occupation vectors
sum to the electron count. -/
theorem uhf_occ_core {na : ℤ} {N : ℕ} {ea eb : List ℚ}
    {oc : List ℚ × List ℚ} (h0 : 0 ≤ na) (h1 : na ≤ (N : ℤ))
    (hlen : ea.length = eb.length)
    (h : ((if na < (ea.length : ℤ) then
            (pyGet ea (na - 1)).bind fun _ => (pyGet ea na).map fun _ => ()
          else
            (pyGet ea (na - 1)).map fun _ => ()) : Option Unit).bind
          (fun _ =>
            (((pyGet ea ((N : ℤ) - na - 1)).bind fun _ =>
              (pyGet ea ((N : ℤ) - na)).map fun _ => ()) : Option Unit).map
            fun _ => (occListZ ea.length na, occListZ eb.length ((N : ℤ) - na)))
          = some oc) :
    oc.1.sum + oc.2.sum = (N : ℚ) := by
  rcases Option.bind_eq_some.mp h with ⟨u1, hd1, h2⟩
  rcases Option.map_eq_some'.mp h2 with ⟨u2, hd2, hoc⟩
  have hnb0 : 0 ≤ (N : ℤ) - na := by omega
  rcases Option.bind_eq_some.mp hd2 with ⟨w1, hw1, h3⟩
  rcases Option.map_eq_some'.mp h3 with ⟨w2, hw2, -⟩
  have hnb_lt : (N : ℤ) - na < (ea.length : ℤ) := pyGet_some_nonneg hnb0 hw2
  have hna_le : na ≤ (ea.length : ℤ) := by
    by_cases hlt : na < (ea.length : ℤ)
    · omega
    · rw [if_neg hlt] at hd1
      rcases Option.map_eq_some'.mp hd1 with ⟨w3, hw3, -⟩
      by_cases hz : na = 0
      · have := pyGet_some_neg (show na - 1 < 0 by omega) hw3
        omega
      · have := pyGet_some_nonneg (show (0 : ℤ) ≤ na - 1 by omega) hw3
        omega
  rw [← hoc]
  dsimp only
  rw [occ_sum_cast h0 hna_le,
    occ_sum_cast hnb0 (show (N : ℤ) - na ≤ (eb.length : ℤ) by omega)]
  have hsum : na.toNat + ((N : ℤ) - na).toNat = N := by omega
  exact_mod_cast hsum

/-- C7 (amended): for every restricted input with even electron count `N`
on which `SCF.set_mo_occ` returns (its debug logging raises `IndexError`
when the orbital count is below `N/2`), the occupation vector sums to `N`
and has exactly the lowest `N/2` entries equal to 2, all others 0.  For
every unrestricted input on which `UHF.set_mo_occ` returns, PROVIDED the
configured fixed alpha count does not exceed the electron count (the
amendment the counterexample forces; the automatic branch always satisfies
it), the alpha plus beta occupation counts equal the total electron
count. -/
theorem c7_occupation_sums :
    (∀ (nelectron : ℕ) (mo_energy : List ℚ) (v : List ℚ),
        nelectron % 2 = 0 → set_mo_occ nelectron mo_energy = some v →
        v.sum = (nelectron : ℚ)
          ∧ ∀ (i : ℕ) (h : i < v.length),
              v.get ⟨i, h⟩ = if i < nelectron / 2 then 2 else 0)
      ∧ (∀ (nelectron fix_na : ℕ) (ea eb : List ℚ) (oc : List ℚ × List ℚ),
          fix_na ≤ nelectron → ea.length = eb.length →
          uhf_set_mo_occ nelectron fix_na ea eb = some oc →
          oc.1.sum + oc.2.sum = (nelectron : ℚ)) := by
  constructor
  · intro N E v hN h
    simp only [set_mo_occ] at h
    have main : ∀ hle : N / 2 ≤ E.length, v = occList E.length (N / 2) 2 →
        v.sum = (N : ℚ)
          ∧ ∀ (i : ℕ) (hi : i < v.length),
              v.get ⟨i, hi⟩ = if i < N / 2 then 2 else 0 := by
      intro hle hv
      subst hv
      constructor
      · rw [occList_sum]
        have h1 : min (N / 2) E.length = N / 2 := by omega
        have h2 : N / 2 * 2 = N := by omega
        rw [h1]
        calc ((N / 2 : ℕ) : ℚ) * 2 = ((N / 2 * 2 : ℕ) : ℚ) := by push_cast; ring
          _ = (N : ℚ) := by rw [h2]
      · intro i hi
        exact occList_get _ _ _ i hi
    by_cases hlt : N / 2 < E.length
    · rw [if_pos hlt] at h
      rcases Option.bind_eq_some.mp h with ⟨a, ha, h2⟩
      rcases Option.map_eq_some'.mp h2 with ⟨b, hb, hv⟩
      exact main (by omega) hv.symm
    · rw [if_neg hlt] at h
      rcases Option.map_eq_some'.mp h with ⟨a, ha, hv⟩
      have hle : N / 2 ≤ E.length := by
        by_cases hz : N / 2 = 0
        · have := pyGet_some_neg (show ((N / 2 : ℕ) : ℤ) - 1 < 0 by omega) ha
          omega
        · have := pyGet_some_nonneg
            (show (0 : ℤ) ≤ ((N / 2 : ℕ) : ℤ) - 1 by omega) ha
          omega
      exact main hle hv.symm
  · intro N fx ea eb oc hfix hlen h
    by_cases hfx : 0 < fx
    · simp only [uhf_set_mo_occ] at h
      rw [if_pos hfx] at h
      exact uhf_occ_core (by omega) (by omega) hlen h
    · simp only [uhf_set_mo_occ] at h
      rw [if_neg hfx] at h
      have hcnt := uhf_alpha_count_le N ea eb
      exact uhf_occ_core (by omega) (by omega) hlen h

theorem c7_occupation_sums_witness :
    ([(2 : ℚ), 0].sum = ((2 : ℕ) : ℚ))
      ∧ ([(1 : ℚ), 0].sum + [(1 : ℚ), 0].sum = ((2 : ℕ) : ℚ)) :=
  ⟨(c7_occupation_sums.1 2 [0, 0] [2, 0] (by decide) rfl).1,
    c7_occupation_sums.2 2 1 [0, 0] [0, 0] ([1, 0], [1, 0])
      (by decide) rfl rfl⟩

/-- C7 counterexample: with `fix_nelectron_alpha = 5` configured on a
two-electron system with six orbitals per channel, `UHF.set_mo_occ`
returns normally (every eagerly logged index is in range after Python's
negative-index wrap) but `n_b = 2 - 5 = -3` makes the beta slice
`mo_occ[1][:-3]` fill `6 - 3 = 3` entries: 5 alpha plus 3 beta occupations
sum to 8, not the electron count 2. -/
theorem c7_counterexample :
    uhf_set_mo_occ 2 5 (List.replicate 6 0) (List.replicate 6 0)
        = some (occListZ 6 5, occListZ 6 (-3))
      ∧ (occListZ 6 5).sum + (occListZ 6 (-3)).sum = 8
      ∧ ((8 : ℚ) ≠ 2) := by
  refine ⟨rfl, ?_, by norm_num⟩
  rw [occListZ_sum, occListZ_sum,
    show pySliceStop 6 5 = 5 from by norm_num [pySliceStop],
    show pySliceStop 6 (-3) = 3 from by norm_num [pySliceStop]]
  have h5 : ((5 : ℤ).toNat : ℚ) = 5 := rfl
  have h3 : ((3 : ℤ).toNat : ℚ) = 3 := rfl
  rw [h5, h3]
  norm_num
